import Mathlib

/-!
Shallow embedding of the panicless container library (src/vec.rs,
src/str_vec.rs, src/cursor_vec.rs) and verification of the specification
claims about it.

Modelling conventions:
* A ChillVec<T> is modelled by the list of its stored elements together with
  its capacity.  The raw pointer is not modelled; reallocation preserves the
  element images, so only the element list and the capacity are observable.
  An extra field allocCount counts how many allocation or reallocation calls
  the value has performed, so that claims about "performs no allocation" are
  statable.
* usize values are modelled as Nat.  Where the source performs a narrowing
  cast such as item as u8, the model stores item % 2^8, the exact semantics
  of an unsigned as-cast in Rust.  We assume a 64-bit platform (usize = u64),
  as the specification does when it discusses the value 5_000_000_000.
* Allocation failure from the operating system is not modelled (the source
  aborts the process in that case and no post-state exists); the model takes
  the successful branch of alloc/realloc.  The deliberate abort on
  byte-size overflow and the assert! panic on zero-sized types are modelled
  in the checked constructors via the AllocOutcome type.
* Rust str values are modelled as their UTF-8 byte lists (List Nat);
  str::from_utf8_unchecked is the identity on the underlying bytes.
-/

/-- The three ways a construction in vec.rs can come out: a value, an
unstructured assert! panic, or the deliberate handle_alloc_error abort. -/
inductive AllocOutcome (α : Type) where
  | ok (value : α)
  | assertPanic
  | abortAlloc
  deriving DecidableEq, Repr

/-- Model of ChillVec<T> (src/vec.rs, struct at lines 57-62): the stored
elements in order, the allocated capacity in elements, and a count of
allocation/reallocation calls performed through this value. -/
structure ChillVec (α : Type) where
  data : List α
  capacity : Nat
  allocCount : Nat
  deriving DecidableEq, Repr

namespace ChillVec

/-- ChillVec::new (vec.rs lines 103-111) for an element type of nonzero
size, the only way it is instantiated in this crate (u8/u16/u32/u64):
dangling pointer, length 0, capacity 0, no allocation.  The assert! on
size_of is modelled separately by newChecked. -/
def new {α : Type} : ChillVec α :=
  { data := [], capacity := 0, allocCount := 0 }

/-- ChillVec::with_capacity (vec.rs lines 120-134) for an element type of
nonzero size: capacity 0 falls back to new (no allocation), otherwise one
allocation of exactly cap elements. -/
def with_capacity {α : Type} (cap : Nat) : ChillVec α :=
  if cap = 0 then new
  else { data := [], capacity := cap, allocCount := 1 }

/-- ChillVec::new with the size of the element type made explicit, so that
the assert!(size_of::<T>() > 0) at vec.rs line 105 is observable: a
zero-sized element type panics (an unstructured panic, not the documented
handle_alloc_error abort path). -/
def newChecked (α : Type) (sizeOfT : Nat) : AllocOutcome (ChillVec α) :=
  if 0 < sizeOfT then .ok new else .assertPanic

/-- ChillVec::with_capacity with the size of the element type explicit
(vec.rs lines 120-134): the assert! at line 122 panics on a zero-sized
type; otherwise cap = 0 returns the unallocated empty vector, and a
positive cap allocates, aborting first if cap * size_of(T) exceeds
isize::MAX (the check in alloc_or_abort, vec.rs line 19). -/
def with_capacity_checked (α : Type) (sizeOfT cap : Nat) :
    AllocOutcome (ChillVec α) :=
  if 0 < sizeOfT then
    if cap = 0 then .ok new
    else if cap * sizeOfT > 2 ^ 63 - 1 then .abortAlloc
    else .ok { data := [], capacity := cap, allocCount := 1 }
  else .assertPanic

/-- Length of the vector, as exposed through Deref to a slice (vec.rs
lines 254-261): the number of stored elements. -/
def len {α : Type} (v : ChillVec α) : Nat :=
  v.data.length

/-- ChillVec::reserve (vec.rs lines 149-170): a no-op when the requested
capacity is already satisfied (or zero); otherwise a first allocation or a
content-preserving reallocation, after which the capacity is exactly the
request. -/
def reserve {α : Type} (v : ChillVec α) (new_capacity : Nat) : ChillVec α :=
  if new_capacity ≤ v.capacity then v
  else if new_capacity = 0 then v
  else { v with capacity := new_capacity, allocCount := v.allocCount + 1 }

/-- ChillVec::push (vec.rs lines 182-193): when full, first reserve
capacity + capacity/2 + 1, then write the item at index length and
increment the length. -/
def push {α : Type} (v : ChillVec α) (item : α) : ChillVec α :=
  let v := if v.data.length = v.capacity
    then v.reserve (v.capacity + v.capacity / 2 + 1)
    else v
  { v with data := v.data ++ [item] }

/-- Fold ChillVec.push over a list of items, the model of a sequence of
push calls. -/
def pushAll {α : Type} (v : ChillVec α) (items : List α) : ChillVec α :=
  items.foldl push v

/-- Bounds-checked element access, slice::get through Deref: some element
when the index is in range, none otherwise. -/
def get {α : Type} (v : ChillVec α) (index : Nat) : Option α :=
  v.data.get? index

/-- Bounds-checked range access data.get(begin..end) on the underlying
slice: some subslice when begin ≤ end ≤ length, none otherwise. -/
def getRange {α : Type} (v : ChillVec α) (b e : Nat) : Option (List α) :=
  if b ≤ e ∧ e ≤ v.data.length
  then some ((v.data.drop b).take (e - b))
  else none

/-- ChillVec::shrink_to_fit (vec.rs lines 196-213): reallocates down to
exactly length elements, but only when length > 0 and capacity > length;
otherwise it does nothing. -/
def shrink_to_fit {α : Type} (v : ChillVec α) : ChillVec α :=
  if v.data.length > 0 ∧ v.capacity > v.data.length then
    { v with capacity := v.data.length, allocCount := v.allocCount + 1 }
  else v

/-- ChillVec::extend_from_slice (vec.rs lines 216-234, T: Copy): reserve
new_len + 1 when the combined length exceeds the capacity, bulk-copy the
items after the current contents, set length to the combined length. -/
def extend_from_slice {α : Type} (v : ChillVec α) (items : List α) :
    ChillVec α :=
  let new_len := v.data.length + items.length
  let v := if new_len > v.capacity then v.reserve (new_len + 1) else v
  { v with data := v.data ++ items }

/-- Clone for ChillVec (vec.rs lines 71-94): an empty vector clones to a
fresh unallocated empty vector; otherwise one allocation of exactly length
elements and a bitwise copy of the contents.  The returned value's
allocCount counts the allocations the clone operation itself performed. -/
def clone {α : Type} (v : ChillVec α) : ChillVec α :=
  if v.data.length = 0 then new
  else { data := v.data, capacity := v.data.length, allocCount := 1 }

end ChillVec

/-- Model of NumberVec (src/str_vec.rs lines 15-21): a tagged choice among
four fixed-width unsigned representations, each backed by a ChillVec.  The
stored machine integers are modelled as Nat values already reduced by the
narrowing cast of the corresponding push, so a uN vector holds naturals
below 2^N. -/
inductive NumberVec where
  | u8 (v : ChillVec Nat)
  | u16 (v : ChillVec Nat)
  | u32 (v : ChillVec Nat)
  | u64 (v : ChillVec Nat)
  deriving DecidableEq, Repr

namespace NumberVec

/-- Width in bits of the active representation. -/
def width : NumberVec → Nat
  | .u8 _ => 8
  | .u16 _ => 16
  | .u32 _ => 32
  | .u64 _ => 64

/-- NumberVec::max_value (str_vec.rs lines 55-62): the largest value the
active width can hold. -/
def max_value : NumberVec → Nat
  | .u8 _ => 2 ^ 8 - 1
  | .u16 _ => 2 ^ 16 - 1
  | .u32 _ => 2 ^ 32 - 1
  | .u64 _ => 2 ^ 64 - 1

/-- NumberVec::push_impl (str_vec.rs lines 64-71): push item into the
active ChillVec after the narrowing as-cast to the active width. -/
def push_impl : NumberVec → Nat → NumberVec
  | .u8 v, item => .u8 (v.push (item % 2 ^ 8))
  | .u16 v, item => .u16 (v.push (item % 2 ^ 16))
  | .u32 v, item => .u32 (v.push (item % 2 ^ 32))
  | .u64 v, item => .u64 (v.push (item % 2 ^ 64))

/-- NumberVec::capacity (str_vec.rs lines 73-80). -/
def capacity : NumberVec → Nat
  | .u8 v => v.capacity
  | .u16 v => v.capacity
  | .u32 v => v.capacity
  | .u64 v => v.capacity

/-- NumberVec::len (str_vec.rs lines 82-89). -/
def len : NumberVec → Nat
  | .u8 v => v.len
  | .u16 v => v.len
  | .u32 v => v.len
  | .u64 v => v.len

/-- NumberVec::push (str_vec.rs lines 24-44).  When the item fits the
active width, push_impl appends it.  Otherwise a fresh ChillVec of the
first width among 16, 32, 64 bits that can hold the item is allocated with
the old capacity, the item alone is pushed into it, and it replaces the
active representation: the source never copies the previously stored
values into the new vector. -/
def push (nv : NumberVec) (item : Nat) : NumberVec :=
  if item ≤ nv.max_value then nv.push_impl item
  else if item ≤ 2 ^ 16 - 1 then
    .u16 ((ChillVec.with_capacity nv.capacity).push (item % 2 ^ 16))
  else if item ≤ 2 ^ 32 - 1 then
    .u32 ((ChillVec.with_capacity nv.capacity).push (item % 2 ^ 32))
  else
    .u64 ((ChillVec.with_capacity nv.capacity).push (item % 2 ^ 64))

/-- NumberVec::get (str_vec.rs lines 46-53): bounds-checked read of the
active ChillVec; the widening as-cast back to usize is the identity. -/
def get : NumberVec → Nat → Option Nat
  | .u8 v, index => v.get index
  | .u16 v, index => v.get index
  | .u32 v, index => v.get index
  | .u64 v, index => v.get index

/-- Fold NumberVec.push over a list of items. -/
def pushAll (nv : NumberVec) (items : List Nat) : NumberVec :=
  items.foldl push nv

/-- The empty NumberVec in its narrowest representation.  The source has no
standalone constructor; StrVec::new builds NumberVec::U8(Vec::with_capacity(8))
(str_vec.rs line 124), and the specification's create_empty selects the
narrowest (8-bit) representation with zero elements.  Capacity does not
affect the stored sequence, so the unallocated empty vector is used. -/
def new : NumberVec := .u8 ChillVec.new

end NumberVec

/-- Model of StrVec (src/str_vec.rs lines 6-9): the concatenated bytes of
all stored strings and the offset index. -/
structure StrVec where
  data : ChillVec Nat
  indices : NumberVec
  deriving DecidableEq, Repr

namespace StrVec

/-- StrVec::new (str_vec.rs lines 123-130): byte buffer with capacity 64,
offset index NumberVec::U8(Vec::with_capacity(8)) holding the single
offset 0. -/
def new : StrVec :=
  { data := ChillVec.with_capacity 64,
    indices := (NumberVec.u8 (ChillVec.with_capacity 8)).push 0 }

/-- StrVec::with_capacity (str_vec.rs lines 132-140). -/
def with_capacity (bytes_cap indices_cap : Nat) : StrVec :=
  { data := ChillVec.with_capacity bytes_cap,
    indices := (NumberVec.u8 (ChillVec.with_capacity indices_cap)).push 0 }

/-- StrVec::len (str_vec.rs lines 166-168). -/
def len (sv : StrVec) : Nat := sv.indices.len - 1

/-- StrVec::push (str_vec.rs lines 154-157): push the end offset
data.len() + item.len() onto the offset index, then bulk-append the
string's bytes to the byte buffer. -/
def push (sv : StrVec) (item : List Nat) : StrVec :=
  { data := sv.data.extend_from_slice item,
    indices := sv.indices.push (sv.data.data.length + item.length) }

/-- Fold StrVec.push over a list of byte strings. -/
def pushAll (sv : StrVec) (items : List (List Nat)) : StrVec :=
  items.foldl push sv

/-- StrVec::get (str_vec.rs lines 146-152): the begin and end offsets are
read from the offset index (with the try operator), then the byte span
between them is returned (str::from_utf8_unchecked is the identity on the
bytes). -/
def get (sv : StrVec) (index : Nat) : Option (List Nat) :=
  match sv.indices.get index, sv.indices.get (index + 1) with
  | some b, some e => sv.data.getRange b e
  | _, _ => none

/-- The value produced by the i-th call (0-based) to StrVecIter::next on a
freshly created iterator (str_vec.rs lines 97-108): the iterator starts at
index 0 and each next call returns get(index) when index < len (else None)
and increments index, so the i-th call reads position i. -/
def iterYield (sv : StrVec) (i : Nat) : Option (List Nat) :=
  if i < sv.len then sv.get i else none

/-- Invariant of StrVec states reached by pushes from StrVec::new: the
offset index is nonempty, its last entry equals the byte buffer's current
length, that length fits the offset index's active width, and the byte
buffer respects length ≤ capacity. -/
def Inv (sv : StrVec) : Prop :=
  1 ≤ sv.indices.len ∧
  sv.indices.get (sv.indices.len - 1) = some sv.data.data.length ∧
  sv.data.data.length ≤ sv.indices.max_value ∧
  sv.data.data.length ≤ sv.data.capacity

/-- States of a StrVec reachable in a real execution: built from
StrVec::new by pushes.  The side condition on each push models usize
arithmetic: data.len() + item.len() is computed in usize and a live
process cannot hold more than usize::MAX bytes, so the sum never exceeds
2^64 - 1 on the modelled 64-bit platform. -/
inductive Reachable : StrVec → Prop
  | new : Reachable StrVec.new
  | push (sv : StrVec) (item : List Nat)
      (hbound : sv.data.data.length + item.length < 2 ^ 64) :
      Reachable sv → Reachable (sv.push item)

end StrVec

/-- Model of CursorVec<T> (src/cursor_vec.rs lines 6-9): a backing ChillVec
and the cursor index. -/
structure CursorVec (α : Type) where
  index : Nat
  vec : ChillVec α
  deriving DecidableEq, Repr

namespace CursorVec

/-- CursorVec::new (cursor_vec.rs lines 14-18): a one-element vector with
the cursor at 0. -/
def new {α : Type} (first : α) : CursorVec α :=
  { index := 0, vec := ChillVec.new.push first }

/-- CursorVec::push (cursor_vec.rs lines 54-56): append to the backing
vector; the cursor is unaffected. -/
def push {α : Type} (c : CursorVec α) (item : α) : CursorVec α :=
  { c with vec := c.vec.push item }

/-- CursorVec::len (cursor_vec.rs lines 74-76). -/
def len {α : Type} (c : CursorVec α) : Nat := c.vec.len

/-- CursorVec::next (cursor_vec.rs lines 31-36): increment the index, then
reset it to 0 when it reaches the length. -/
def next {α : Type} (c : CursorVec α) : CursorVec α :=
  let i := c.index + 1
  if i = c.vec.len then { c with index := 0 } else { c with index := i }

/-- CursorVec::prev (cursor_vec.rs lines 39-46): when the index is 0 it
wraps to length - 1; otherwise the source INCREMENTS the index (the
comment there claims the value does not matter). -/
def prev {α : Type} (c : CursorVec α) : CursorVec α :=
  if c.index = 0 then { c with index := c.vec.len - 1 }
  else { c with index := c.index + 1 }

end CursorVec

/-! Helper lemmas about ChillVec shared by the claim proofs. -/

theorem ChillVec.reserve_data {α : Type} (v : ChillVec α) (n : Nat) :
    (v.reserve n).data = v.data := by
  unfold ChillVec.reserve
  split <;> [rfl; split <;> rfl]

theorem ChillVec.reserve_capacity_of_gt {α : Type} (v : ChillVec α) (n : Nat)
    (h : v.capacity < n) : (v.reserve n).capacity = n := by
  unfold ChillVec.reserve
  rw [if_neg (by omega), if_neg (by omega)]

theorem ChillVec.push_data {α : Type} (v : ChillVec α) (a : α) :
    (v.push a).data = v.data ++ [a] := by
  unfold ChillVec.push
  split <;> simp [ChillVec.reserve_data]

theorem ChillVec.pushAll_data {α : Type} (v : ChillVec α) (items : List α) :
    (v.pushAll items).data = v.data ++ items := by
  induction items generalizing v with
  | nil => simp [ChillVec.pushAll]
  | cons a items ih =>
      show ((v.push a).pushAll items).data = _
      rw [ih, ChillVec.push_data]
      simp

theorem ChillVec.with_capacity_data {α : Type} (cap : Nat) :
    (ChillVec.with_capacity cap : ChillVec α).data = [] := by
  unfold ChillVec.with_capacity
  split <;> rfl

theorem ChillVec.get_push_lt {α : Type} (v : ChillVec α) (a : α) (i : Nat)
    (h : i < v.data.length) : (v.push a).get i = v.get i := by
  unfold ChillVec.get
  rw [ChillVec.push_data, List.get?_append h]

theorem ChillVec.get_push_len {α : Type} (v : ChillVec α) (a : α) :
    (v.push a).get v.data.length = some a := by
  unfold ChillVec.get
  rw [ChillVec.push_data, List.get?_concat_length]

theorem ChillVec.len_push {α : Type} (v : ChillVec α) (a : α) :
    (v.push a).len = v.len + 1 := by
  unfold ChillVec.len
  rw [ChillVec.push_data]
  simp

theorem ChillVec.extend_data {α : Type} (v : ChillVec α) (items : List α) :
    (v.extend_from_slice items).data = v.data ++ items := by
  simp only [ChillVec.extend_from_slice]
  split <;> simp [ChillVec.reserve_data]

theorem ChillVec.extend_len_le_capacity {α : Type} (v : ChillVec α)
    (items : List α) :
    (v.extend_from_slice items).data.length
      ≤ (v.extend_from_slice items).capacity := by
  simp only [ChillVec.extend_from_slice]
  split
  · next hgt =>
      have hc := ChillVec.reserve_capacity_of_gt v
        (v.data.length + items.length + 1) (by omega)
      simp [ChillVec.reserve_data, hc]
  · next hle =>
      simp only [not_lt] at hle
      simp
      omega

theorem ChillVec.extend_nil {α : Type} (v : ChillVec α)
    (h : v.data.length ≤ v.capacity) : v.extend_from_slice [] = v := by
  simp only [ChillVec.extend_from_slice, List.length_nil, Nat.add_zero,
    List.append_nil, gt_iff_lt]
  rw [if_neg (by omega)]

/-! Helper lemmas about NumberVec. -/

theorem NumberVec.push_of_le (nv : NumberVec) (item : Nat)
    (h : item ≤ nv.max_value) : nv.push item = nv.push_impl item := by
  unfold NumberVec.push
  rw [if_pos h]

theorem NumberVec.len_push_impl (nv : NumberVec) (item : Nat) :
    (nv.push_impl item).len = nv.len + 1 := by
  cases nv <;> simp [NumberVec.push_impl, NumberVec.len, ChillVec.len_push]

theorem NumberVec.get_push_impl_lt (nv : NumberVec) (item : Nat) (i : Nat)
    (h : i < nv.len) : (nv.push_impl item).get i = nv.get i := by
  cases nv <;>
    exact ChillVec.get_push_lt _ _ _ h

theorem NumberVec.get_push_impl_len (nv : NumberVec) (item : Nat)
    (h : item ≤ nv.max_value) : (nv.push_impl item).get nv.len = some item := by
  have hmod : ∀ w : Nat, item ≤ 2 ^ w - 1 → item % 2 ^ w = item := by
    intro w hle
    exact Nat.mod_eq_of_lt (by have := Nat.one_le_two_pow (n := w); omega)
  cases nv with
  | u8 v =>
      show (v.push (item % 2 ^ 8)).get v.data.length = some item
      rw [ChillVec.get_push_len, hmod 8 h]
  | u16 v =>
      show (v.push (item % 2 ^ 16)).get v.data.length = some item
      rw [ChillVec.get_push_len, hmod 16 h]
  | u32 v =>
      show (v.push (item % 2 ^ 32)).get v.data.length = some item
      rw [ChillVec.get_push_len, hmod 32 h]
  | u64 v =>
      show (v.push (item % 2 ^ 64)).get v.data.length = some item
      rw [ChillVec.get_push_len, hmod 64 h]

theorem NumberVec.max_value_push_impl (nv : NumberVec) (item : Nat) :
    (nv.push_impl item).max_value = nv.max_value := by
  cases nv <;> rfl

theorem NumberVec.width_push_impl (nv : NumberVec) (item : Nat) :
    (nv.push_impl item).width = nv.width := by
  cases nv <;> rfl

/-- In the upgrade branch of NumberVec::push (the pushed value exceeds the
active width but fits in 64 bits), the replacement vector holds exactly
the one pushed value, which fits the new width. -/
theorem NumberVec.push_upgrade (nv : NumberVec) (val : Nat)
    (hgt : ¬ val ≤ nv.max_value) (hlt : val < 2 ^ 64) :
    (nv.push val).len = 1 ∧
    (nv.push val).get 0 = some val ∧
    val ≤ (nv.push val).max_value := by
  have hmod : ∀ w : Nat, val ≤ 2 ^ w - 1 → val % 2 ^ w = val := by
    intro w hle
    exact Nat.mod_eq_of_lt (by have := Nat.one_le_two_pow (n := w); omega)
  have hone : ∀ a : Nat,
      ((ChillVec.with_capacity nv.capacity : ChillVec Nat).push a).data = [a] := by
    intro a
    rw [ChillVec.push_data, ChillVec.with_capacity_data]
    rfl
  unfold NumberVec.push
  rw [if_neg hgt]
  split_ifs with h16 h32
  · refine ⟨?_, ?_, h16⟩
    · show ((ChillVec.with_capacity nv.capacity).push (val % 2 ^ 16)).data.length = 1
      rw [hone]
      rfl
    · show ((ChillVec.with_capacity nv.capacity).push (val % 2 ^ 16)).get 0 = some val
      unfold ChillVec.get
      rw [hone, hmod 16 h16]
      rfl
  · refine ⟨?_, ?_, h32⟩
    · show ((ChillVec.with_capacity nv.capacity).push (val % 2 ^ 32)).data.length = 1
      rw [hone]
      rfl
    · show ((ChillVec.with_capacity nv.capacity).push (val % 2 ^ 32)).get 0 = some val
      unfold ChillVec.get
      rw [hone, hmod 32 h32]
      rfl
  · have h64 : val ≤ 2 ^ 64 - 1 := by omega
    refine ⟨?_, ?_, h64⟩
    · show ((ChillVec.with_capacity nv.capacity).push (val % 2 ^ 64)).data.length = 1
      rw [hone]
      rfl
    · show ((ChillVec.with_capacity nv.capacity).push (val % 2 ^ 64)).get 0 = some val
      unfold ChillVec.get
      rw [hone, hmod 64 h64]
      rfl

/-- C4 counterexample: the claim that shrink_to_fit always leaves
capacity == length fails on a vector created with capacity 5 and never
pushed to: length is 0, shrink_to_fit takes the no-op branch and the
capacity stays 5. -/
theorem C4_counterexample :
    ¬ ((ChillVec.with_capacity 5 : ChillVec Nat).shrink_to_fit.capacity
        = (ChillVec.with_capacity 5 : ChillVec Nat).shrink_to_fit.len) := by
  decide

/-- C4 (amended): for every ChillVec satisfying the length ≤ capacity
invariant, shrink_to_fit leaves capacity == length whenever length > 0;
when length == 0 it is a no-op that leaves the vector (in particular its
capacity) unchanged. -/
theorem C4_shrink_to_fit_amended {α : Type} (v : ChillVec α)
    (hlc : v.len ≤ v.capacity) :
    (0 < v.len → v.shrink_to_fit.capacity = v.shrink_to_fit.len) ∧
    (v.len = 0 → v.shrink_to_fit = v) := by
  unfold ChillVec.shrink_to_fit ChillVec.len at *
  constructor
  · intro hpos
    split
    · rfl
    · next hcond =>
        simp only [not_and, not_lt] at hcond
        exact Nat.le_antisymm (hcond hpos) hlc
  · intro hzero
    rw [if_neg (by omega)]

/-- C4 witness: the amended theorem applied to a vector with length 1 and
capacity 3 yields capacity 1 after shrink_to_fit. -/
theorem C4_witness :
    ((ChillVec.with_capacity 3 : ChillVec Nat).push 7).shrink_to_fit.capacity
      = ((ChillVec.with_capacity 3 : ChillVec Nat).push 7).shrink_to_fit.len :=
  (C4_shrink_to_fit_amended ((ChillVec.with_capacity 3 : ChillVec Nat).push 7)
    (by decide)).1 (by decide)

/-- C5: pushing a sequence of items into an empty ChillVec gives length
equal to the number of pushes and get(i) equal to the i-th pushed item for
every i below the length; and whenever length == capacity, push grows the
capacity to exactly max(1, capacity + capacity/2 + 1) before writing the
item at position length. -/
theorem C5_dynamic_array_push_sequence (α : Type) :
    (∀ items : List α,
        ((ChillVec.new : ChillVec α).pushAll items).len = items.length ∧
        ∀ i : Nat, i < items.length →
          ((ChillVec.new : ChillVec α).pushAll items).get i = items.get? i) ∧
    (∀ (v : ChillVec α) (item : α), v.len = v.capacity →
        (v.push item).capacity = max 1 (v.capacity + v.capacity / 2 + 1) ∧
        (v.push item).data = v.data ++ [item] ∧
        (v.push item).len = v.len + 1) := by
  constructor
  · intro items
    constructor
    · unfold ChillVec.len
      rw [ChillVec.pushAll_data]
      simp [ChillVec.new]
    · intro i hi
      unfold ChillVec.get
      rw [ChillVec.pushAll_data]
      simp [ChillVec.new]
  · intro v item hfull
    refine ⟨?_, ChillVec.push_data v item, ChillVec.len_push v item⟩
    have hfull' : v.data.length = v.capacity := hfull
    have hres : (v.reserve (v.capacity + v.capacity / 2 + 1)).capacity
        = v.capacity + v.capacity / 2 + 1 :=
      ChillVec.reserve_capacity_of_gt v _ (by omega)
    simp only [ChillVec.push, hfull', if_true, eq_self_iff_true, hres]
    omega

/-- C5 witness: the theorem applied to the concrete push sequence
[5, 6, 7] from empty, and to a push on the full empty vector, whose
capacity becomes max 1 1 = 1. -/
theorem C5_witness :
    ((ChillVec.new : ChillVec Nat).pushAll [5, 6, 7]).get 1 = some 6 ∧
    ((ChillVec.new : ChillVec Nat).push 9).capacity = max 1 (0 + 0 / 2 + 1) :=
  ⟨((C5_dynamic_array_push_sequence Nat).1 [5, 6, 7]).2 1 (by decide),
   ((C5_dynamic_array_push_sequence Nat).2 ChillVec.new 9 rfl).1⟩

/-- C8: the constructors assert that the element type has nonzero size:
with size_of(T) = 0 both new and with_capacity end in the unstructured
assert! panic (not the documented abort path), while for any nonzero size
new returns the length-0, capacity-0 instance that has performed no
allocation. -/
theorem C8_zero_sized_assert (α : Type) (sz : Nat) :
    (sz = 0 → ∀ cap : Nat,
        ChillVec.newChecked α sz = .assertPanic ∧
        ChillVec.with_capacity_checked α sz cap = .assertPanic) ∧
    (0 < sz → ChillVec.newChecked α sz
        = .ok { data := [], capacity := 0, allocCount := 0 }) := by
  constructor
  · rintro rfl cap
    exact ⟨rfl, rfl⟩
  · intro hpos
    unfold ChillVec.newChecked
    rw [if_pos hpos]
    rfl

/-- C8 witness: the theorem applied at size 0 (panic) and size 8 (the
unallocated empty vector). -/
theorem C8_witness :
    ChillVec.newChecked Nat 0 = .assertPanic ∧
    ChillVec.newChecked Nat 8
      = .ok { data := [], capacity := 0, allocCount := 0 } :=
  ⟨((C8_zero_sized_assert Nat 0).1 rfl 5).1,
   (C8_zero_sized_assert Nat 8).2 (by decide)⟩

/-- C9: clone returns a vector with the same contents and length, its
capacity equal to its length (excess capacity is not reproduced), and it
performs no allocation when the original is empty and exactly one
otherwise. -/
theorem C9_clone (α : Type) (v : ChillVec α) :
    v.clone.data = v.data ∧
    v.clone.len = v.len ∧
    v.clone.capacity = v.clone.len ∧
    (v.len = 0 → v.clone.allocCount = 0) ∧
    (0 < v.len → v.clone.allocCount = 1) := by
  unfold ChillVec.clone ChillVec.len
  split
  · next hzero =>
      have hd : v.data = [] := List.length_eq_zero.mp hzero
      refine ⟨?_, ?_, rfl, fun _ => rfl, fun h => absurd hzero (by omega)⟩
      · simp [ChillVec.new, hd]
      · simp [ChillVec.new, hzero]
  · next hnz =>
      exact ⟨rfl, rfl, rfl, fun h => absurd h hnz, fun _ => rfl⟩
/-- C9 witness: the theorem applied to a concrete one-element vector with
excess capacity: the clone has capacity 1 and performed one allocation. -/
theorem C9_witness :
    ((ChillVec.with_capacity 4 : ChillVec Nat).push 3).clone.capacity
      = ((ChillVec.with_capacity 4 : ChillVec Nat).push 3).clone.len ∧
    ((ChillVec.with_capacity 4 : ChillVec Nat).push 3).clone.allocCount = 1 :=
  ⟨(C9_clone Nat ((ChillVec.with_capacity 4).push 3)).2.2.1,
   (C9_clone Nat ((ChillVec.with_capacity 4).push 3)).2.2.2.2 (by decide)⟩

/-- C10: extend_from_slice leaves the contents equal to the previous
contents followed by the slice and grows the length by the slice's length;
with the empty slice (under the length ≤ capacity invariant) the vector is
unchanged, capacity included. -/
theorem C10_extend_from_slice (α : Type) :
    (∀ (v : ChillVec α) (items : List α),
        (v.extend_from_slice items).data = v.data ++ items ∧
        (v.extend_from_slice items).len = v.len + items.length) ∧
    (∀ v : ChillVec α, v.len ≤ v.capacity → v.extend_from_slice [] = v) := by
  constructor
  · intro v items
    constructor
    · simp only [ChillVec.extend_from_slice]
      split <;> simp [ChillVec.reserve_data]
    · simp only [ChillVec.extend_from_slice, ChillVec.len]
      split <;> simp [ChillVec.reserve_data]
  · intro v hlc
    have hlc' : v.data.length ≤ v.capacity := hlc
    simp only [ChillVec.extend_from_slice, List.length_nil, Nat.add_zero,
      List.append_nil, gt_iff_lt]
    rw [if_neg (by omega)]

/-- C10 witness: the theorem applied to concrete inputs: extending [1] by
[2, 3], and extending a length-1, capacity-3 vector by the empty slice. -/
theorem C10_witness :
    (((ChillVec.new : ChillVec Nat).push 1).extend_from_slice [2, 3]).data
      = [1] ++ [2, 3] ∧
    ((ChillVec.with_capacity 3 : ChillVec Nat).push 7).extend_from_slice []
      = (ChillVec.with_capacity 3 : ChillVec Nat).push 7 :=
  ⟨by
    have h := ((C10_extend_from_slice Nat).1 ((ChillVec.new : ChillVec Nat).push 1) [2, 3]).1
    simpa using h,
   (C10_extend_from_slice Nat).2 ((ChillVec.with_capacity 3 : ChillVec Nat).push 7)
     (by decide)⟩

/-! Invariant maintenance for StrVec. -/

theorem StrVec.push_indices (sv : StrVec) (item : List Nat) :
    (sv.push item).indices
      = sv.indices.push (sv.data.data.length + item.length) := rfl

theorem StrVec.push_data_eq (sv : StrVec) (item : List Nat) :
    (sv.push item).data = sv.data.extend_from_slice item := rfl

theorem StrVec.Inv_push (sv : StrVec) (item : List Nat)
    (hinv : sv.Inv) (hbound : sv.data.data.length + item.length < 2 ^ 64) :
    (sv.push item).Inv := by
  obtain ⟨hlen1, hlast, hfit, hcap⟩ := hinv
  have hdata : (sv.push item).data.data = sv.data.data ++ item := by
    rw [StrVec.push_data_eq, ChillVec.extend_data]
  have hdlen : (sv.push item).data.data.length
      = sv.data.data.length + item.length := by
    rw [hdata]
    simp
  have hcap' : (sv.push item).data.data.length ≤ (sv.push item).data.capacity := by
    rw [StrVec.push_data_eq]
    exact ChillVec.extend_len_le_capacity sv.data item
  by_cases hle : sv.data.data.length + item.length ≤ sv.indices.max_value
  · have hip : (sv.push item).indices
        = sv.indices.push_impl (sv.data.data.length + item.length) := by
      rw [StrVec.push_indices]
      exact NumberVec.push_of_le _ _ hle
    refine ⟨?_, ?_, ?_, hcap'⟩
    · rw [hip, NumberVec.len_push_impl]
      omega
    · rw [hip, NumberVec.len_push_impl, hdlen, Nat.add_sub_cancel]
      exact NumberVec.get_push_impl_len _ _ hle
    · rw [hip, NumberVec.max_value_push_impl, hdlen]
      exact hle
  · obtain ⟨hl1, hg0, hmax⟩ :=
      NumberVec.push_upgrade sv.indices (sv.data.data.length + item.length)
        hle hbound
    refine ⟨?_, ?_, ?_, hcap'⟩
    · rw [StrVec.push_indices, hl1]
    · rw [StrVec.push_indices, hl1, hdlen, Nat.sub_self]
      exact hg0
    · rw [StrVec.push_indices, hdlen]
      exact hmax

theorem StrVec.new_inv : StrVec.new.Inv := by
  refine ⟨?_, ?_, ?_, ?_⟩ <;> decide

theorem StrVec.Reachable.inv {sv : StrVec} (h : sv.Reachable) : sv.Inv := by
  induction h with
  | new => exact StrVec.new_inv
  | push sv item hbound hr ih => exact StrVec.Inv_push sv item ih hbound

/-- C7: in every reachable StrVec state, pushing the empty string
increases len() by exactly 1, leaves the byte buffer unchanged, stores two
adjacent equal offsets (both equal to the byte buffer's length) at the end
of the offset index, and the newly stored string's span is empty. -/
theorem C7_empty_push (sv : StrVec) (h : sv.Reachable) :
    (sv.push []).len = sv.len + 1 ∧
    (sv.push []).data = sv.data ∧
    (sv.push []).indices.get sv.len = some sv.data.data.length ∧
    (sv.push []).indices.get (sv.len + 1) = some sv.data.data.length ∧
    (sv.push []).get sv.len = some [] := by
  obtain ⟨hlen1, hlast, hfit, hcap⟩ := h.inv
  have hle : sv.data.data.length + List.length ([] : List Nat)
      ≤ sv.indices.max_value := by
    simpa using hfit
  have hip : (sv.push []).indices
      = sv.indices.push_impl (sv.data.data.length + List.length ([] : List Nat)) := by
    rw [StrVec.push_indices]
    exact NumberVec.push_of_le _ _ hle
  have hdat : (sv.push []).data = sv.data := by
    rw [StrVec.push_data_eq]
    exact ChillVec.extend_nil sv.data hcap
  have hlen : (sv.push []).len = sv.len + 1 := by
    unfold StrVec.len
    rw [hip, NumberVec.len_push_impl]
    omega
  have hgetA : (sv.push []).indices.get sv.len = some sv.data.data.length := by
    rw [hip]
    have hlt : sv.len < sv.indices.len := by
      unfold StrVec.len
      omega
    rw [NumberVec.get_push_impl_lt _ _ _ hlt]
    have : sv.len = sv.indices.len - 1 := rfl
    rw [this, hlast]
  have hgetB : (sv.push []).indices.get (sv.len + 1)
      = some sv.data.data.length := by
    rw [hip]
    have hml : sv.len + 1 = sv.indices.len := by
      unfold StrVec.len
      omega
    rw [hml]
    have := NumberVec.get_push_impl_len sv.indices
      (sv.data.data.length + List.length ([] : List Nat)) hle
    simpa using this
  refine ⟨hlen, hdat, hgetA, hgetB, ?_⟩
  unfold StrVec.get
  rw [hgetA, hgetB, hdat]
  show sv.data.getRange sv.data.data.length sv.data.data.length = some []
  unfold ChillVec.getRange
  rw [if_pos ⟨Nat.le_refl _, Nat.le_refl _⟩, Nat.sub_self]
  simp

/-- C7 witness: the theorem applied to the freshly created StrVec, a
reachable state by construction. -/
theorem C7_witness :
    (StrVec.new.push []).len = StrVec.new.len + 1 ∧
    (StrVec.new.push []).data = StrVec.new.data ∧
    (StrVec.new.push []).indices.get StrVec.new.len
      = some StrVec.new.data.data.length ∧
    (StrVec.new.push []).indices.get (StrVec.new.len + 1)
      = some StrVec.new.data.data.length ∧
    (StrVec.new.push []).get StrVec.new.len = some [] :=
  C7_empty_push StrVec.new StrVec.Reachable.new

/-- C1: the claim is FALSE of the source: a width upgrade does not copy
the previously stored values.  Pushing 10 and then 300 into an empty
NumberVec leaves a u16 vector holding only 300: get(0) returns 300
instead of 10, get(1) is absent, and the length has shrunk to 1. -/
theorem C1_upgrade_discards_values :
    (NumberVec.new.push 10).get 0 = some 10 ∧
    ((NumberVec.new.push 10).push 300).get 0 = some 300 ∧
    ((NumberVec.new.push 10).push 300).get 1 = none ∧
    ((NumberVec.new.push 10).push 300).len = 1 := by
  decide

set_option maxRecDepth 8000 in
/-- C2: the claim is FALSE of the source because the offset index loses
its contents on a width upgrade: after pushing one 256-byte string into a
fresh StrVec, the first end offset 256 exceeds the u8 width, the upgraded
index holds only [256] (the initial 0 is dropped), so len() is 0 instead
of 1, get(0) is absent instead of the string, and the iterator yields
nothing. -/
theorem C2_upgrade_breaks_push_get :
    (StrVec.new.push (List.replicate 256 97)).len = 0 ∧
    (StrVec.new.push (List.replicate 256 97)).get 0 = none ∧
    (StrVec.new.push (List.replicate 256 97)).iterYield 0 = none := by
  decide

/-- C3: the claim is FALSE of the source: prev() is not the inverse of
next().  With two elements and the cursor at 0, next() moves to 1 and
prev() then INCREMENTS the index to 2 — an out-of-range position equal to
the length — instead of returning to 0. -/
theorem C3_prev_not_inverse :
    ((CursorVec.new 10).push 20).index = 0 ∧
    (((CursorVec.new 10).push 20).next).index = 1 ∧
    (((CursorVec.new 10).push 20).next.prev).index = 2 ∧
    ((CursorVec.new 10).push 20).len = 2 := by
  decide

/-- C6: the active representation width never decreases across pushes, and
the concrete sequence 10, 300, 70000, 5000000000 drives the width through
8, 16, 32, 64 bits in that order. -/
theorem C6_width_monotone :
    (∀ (nv : NumberVec) (item : Nat), nv.width ≤ (nv.push item).width) ∧
    ((NumberVec.new.pushAll [10]).width = 8 ∧
     (NumberVec.new.pushAll [10, 300]).width = 16 ∧
     (NumberVec.new.pushAll [10, 300, 70000]).width = 32 ∧
     (NumberVec.new.pushAll [10, 300, 70000, 5000000000]).width = 64) := by
  constructor
  · intro nv item
    cases nv <;>
      (simp only [NumberVec.push, NumberVec.max_value, NumberVec.width,
        NumberVec.push_impl]
       split_ifs <;> simp only [NumberVec.width] <;> omega)
  · refine ⟨?_, ?_, ?_, ?_⟩ <;> decide
